/-
Verification of the Jack car-rental policy-iteration solver
(src/chapter-4/car_rental.py) against its natural-language specification.

The Python module is shallowly embedded below.  Python integers become ℤ,
floating-point numbers become ℝ (exact real arithmetic), dictionaries with a
fixed key set become Option-valued lookup functions, and the two unbounded
`while True:` loops become fuel-indexed recursions where `none` means "the
loop is still running after the given number of rounds".
-/
import Mathlib

set_option maxRecDepth 10000

namespace CarRental

/-- Source: `MAX_CARS = 20`. -/
def MAX_CARS : ℤ := 20

/-- Source: `MAX_MOVE = 5`. -/
def MAX_MOVE : ℤ := 5

/-- Source: `CAR_RENTAL_COST = 10` (revenue per satisfied request; enters
real-valued arithmetic only). -/
noncomputable def CAR_RENTAL_COST : ℝ := 10

/-- Source: `CAR_MOVE_COST = 2`. -/
noncomputable def CAR_MOVE_COST : ℝ := 2

/-- Source: `DISCOUNT = 0.9`. -/
noncomputable def DISCOUNT : ℝ := 9 / 10

/-- Source: `REQUEST_1_LAMBDA = 3`. -/
noncomputable def REQUEST_1_LAMBDA : ℝ := 3

/-- Source: `DROPOFF_1_LAMBDA = 3`. -/
noncomputable def DROPOFF_1_LAMBDA : ℝ := 3

/-- Source: `REQUEST_2_LAMBDA = 4`. -/
noncomputable def REQUEST_2_LAMBDA : ℝ := 4

/-- Source: `DROPOFF_B_LAMBDA = 2`. -/
noncomputable def DROPOFF_B_LAMBDA : ℝ := 2

/-- A state of the environment: the pair of inventories at the two locations. -/
abbrev State := ℤ × ℤ

/-- The value table, indexed by states (a dense 21 x 21 numpy array in the
source; only indices in [0, MAX_CARS] x [0, MAX_CARS] are ever used). -/
abbrev Values := State → ℝ

/-- The policy table, indexed by states, holding integer actions. -/
abbrev Policy := State → ℤ

/-- Embedding of Python `range(lo, hi)` over ℤ: the list `[lo, lo+1, ..., hi-1]`,
empty when `hi ≤ lo`. -/
def intRange (lo hi : ℤ) : List ℤ :=
  if h : lo < hi then lo :: intRange (lo + 1) hi else []
termination_by (hi - lo).toNat
decreasing_by omega

/-- Source, `get_valid_action`:
`action = max(-cars_at_2, min(action, cars_at_1))` followed by
`action = max(-MAX_MOVE, min(MAX_MOVE, action))`. -/
def get_valid_action (state : State) (action : ℤ) : ℤ :=
  max (-MAX_MOVE) (min MAX_MOVE (max (-state.2) (min action state.1)))

/-- Source, `get_available_actions`:
`list(range(max(-MAX_CARS, -state[1]), min(MAX_CARS, state[0]) + 1))`. -/
def get_available_actions (state : State) : List ℤ :=
  intRange (max (-MAX_CARS) (-state.2)) (min MAX_CARS state.1 + 1)

/-- The state grid as a Finset: all pairs with both components in
[0, MAX_CARS]; the index set of the numpy tables. -/
def grid : Finset State := Finset.Icc (0, 0) (20, 20)

/-- The state grid as a list in the row-major order in which the nested
`for available_A ... for available_B ...` loops of the source visit it. -/
def gridList : List State :=
  (intRange 0 21).flatMap (fun a => (intRange 0 21).map (fun b => (a, b)))

theorem intRange_nil {lo hi : ℤ} (h : hi ≤ lo) : intRange lo hi = [] := by
  rw [intRange, dif_neg (by omega)]

theorem intRange_cons {lo hi : ℤ} (h : lo < hi) :
    intRange lo hi = lo :: intRange (lo + 1) hi := by
  rw [intRange, dif_pos h]

theorem intRange_mem {lo hi a : ℤ} : a ∈ intRange lo hi ↔ lo ≤ a ∧ a < hi := by
  generalize hn : (hi - lo).toNat = n
  induction n generalizing lo with
  | zero =>
    rw [intRange_nil (by omega)]
    simp only [List.not_mem_nil, false_iff]
    omega
  | succ k ih =>
    rw [intRange_cons (by omega), List.mem_cons, ih (by omega)]
    omega

theorem intRange_sorted {lo hi : ℤ} : (intRange lo hi).Pairwise (· < ·) := by
  generalize hn : (hi - lo).toNat = n
  induction n generalizing lo with
  | zero =>
    rw [intRange_nil (by omega)]
    exact List.Pairwise.nil
  | succ k ih =>
    rw [intRange_cons (by omega)]
    refine List.pairwise_cons.mpr ⟨?_, ih (by omega)⟩
    intro b hb
    have := intRange_mem.mp hb
    omega

theorem intRange_append {lo mid hi : ℤ} (h1 : lo ≤ mid) (h2 : mid ≤ hi) :
    intRange lo hi = intRange lo mid ++ intRange mid hi := by
  generalize hn : (mid - lo).toNat = n
  induction n generalizing lo with
  | zero =>
    have hlm : lo = mid := by omega
    subst hlm
    rw [intRange_nil le_rfl, List.nil_append]
  | succ k ih =>
    rw [intRange_cons (show lo < hi by omega), intRange_cons (show lo < mid by omega),
      List.cons_append, ih (by omega) (by omega)]

theorem intRange_ne_nil {lo hi : ℤ} (h : lo < hi) : intRange lo hi ≠ [] := by
  rw [intRange_cons h]
  exact List.cons_ne_nil _ _

theorem grid_nonempty : grid.Nonempty := ⟨(0, 0), by decide⟩

theorem mem_grid {s : State} :
    s ∈ grid ↔ 0 ≤ s.1 ∧ s.1 ≤ 20 ∧ 0 ≤ s.2 ∧ s.2 ≤ 20 := by
  obtain ⟨a, b⟩ := s
  unfold grid
  rw [Finset.mem_Icc]
  simp only [Prod.mk_le_mk]
  omega

theorem mem_gridList {s : State} :
    s ∈ gridList ↔ 0 ≤ s.1 ∧ s.1 ≤ 20 ∧ 0 ≤ s.2 ∧ s.2 ≤ 20 := by
  obtain ⟨a, b⟩ := s
  unfold gridList
  simp only [List.mem_flatMap, List.mem_map, intRange_mem, Prod.mk.injEq]
  constructor
  · rintro ⟨i, hi, j, hj, rfl, rfl⟩
    omega
  · rintro ⟨h1, h2, h3, h4⟩
    exact ⟨a, by omega, b, by omega, rfl, rfl⟩

/-- Source, `poisson_probability`: `math.exp(-lam) * (math.pow(lam, n) / math.factorial(n))`.
The `self._poisson_prob` dictionary is a memoization cache of this pure formula. -/
noncomputable def poisson_probability (n : ℕ) (lam : ℝ) : ℝ :=
  Real.exp (-lam) * (lam ^ n / n.factorial)

/-- Total mass of the truncated Poisson distribution: the sum of
`poisson_probability` over the truncation domain `range(MAX_CARS + max(ACTIONS) + 1)`
= `range(26)` used by `precompute_model`. -/
noncomputable def truncMass (lam : ℝ) : ℝ :=
  ∑ k ∈ Finset.range 26, poisson_probability k lam

/-- Source, `precompute_model` inner update
`new_n = max(0, min(MAX_CARS, n + dropoffs - satisfied_requests))` with
`satisfied_requests = min(requests, n)`. -/
def newN (n : ℤ) (k j : ℕ) : ℤ :=
  max 0 (min 20 (n + j - min (k : ℤ) n))

/-- Source, `precompute_model` reward accumulation: after all iterations,
`R[n] = Σ_requests CAR_RENTAL_COST * p(requests; λ) * min(requests, n)`
for each `n` in `range(26)`. -/
noncomputable def rewardsVal (lamReq : ℝ) (n : ℤ) : ℝ :=
  ∑ k ∈ Finset.range 26, CAR_RENTAL_COST * poisson_probability k lamReq * ((min (k : ℤ) n : ℤ) : ℝ)

/-- Source, `precompute_model` probability accumulation: after all iterations,
`P[(n, np)] = Σ_requests Σ_dropoffs p(requests; λr) * p(dropoffs; λd) * [newN = np]`. -/
noncomputable def probsVal (lamReq lamDrop : ℝ) (n np : ℤ) : ℝ :=
  ∑ k ∈ Finset.range 26, ∑ j ∈ Finset.range 26,
    if newN n k j = np then poisson_probability k lamReq * poisson_probability j lamDrop else 0

/-- Source: `self._probs_1, self._rewards_1 = self.precompute_model(REQUEST_1_LAMBDA, DROPOFF_1_LAMBDA)`. -/
noncomputable def probs_1 : ℤ → ℤ → ℝ := probsVal REQUEST_1_LAMBDA DROPOFF_1_LAMBDA

/-- Reward table of location 1. -/
noncomputable def rewards_1 : ℤ → ℝ := rewardsVal REQUEST_1_LAMBDA

/-- Source: `self._probs_2, self._rewards_2 = self.precompute_model(REQUEST_2_LAMBDA, DROPOFF_B_LAMBDA)`. -/
noncomputable def probs_2 : ℤ → ℤ → ℝ := probsVal REQUEST_2_LAMBDA DROPOFF_B_LAMBDA

/-- Reward table of location 2. -/
noncomputable def rewards_2 : ℤ → ℝ := rewardsVal REQUEST_2_LAMBDA

/-- Dictionary lookup in `self._rewards_1`.  The keys written by
`precompute_model` are exactly the integers of `range(26)`; looking up any
other key raises a KeyError, modeled by `none`. -/
noncomputable def rewards_1_get (n : ℤ) : Option ℝ :=
  if 0 ≤ n ∧ n < 26 then some (rewards_1 n) else none

/-- Dictionary lookup in `self._rewards_2` (keys `range(26)`). -/
noncomputable def rewards_2_get (n : ℤ) : Option ℝ :=
  if 0 ≤ n ∧ n < 26 then some (rewards_2 n) else none

/-- Dictionary lookup in `self._probs_1`.  The keys written by
`precompute_model` are exactly the pairs `(n, np)` with `n` in `range(26)` and
`np` in `[0, MAX_CARS]`: every written key has `np = newN n k j ∈ [0, 20]`, and
every such pair is reached (e.g. by `requests = 25 ≥ n`, `dropoffs = np`). -/
noncomputable def probs_1_get (n np : ℤ) : Option ℝ :=
  if 0 ≤ n ∧ n < 26 ∧ 0 ≤ np ∧ np ≤ 20 then some (probs_1 n np) else none

/-- Dictionary lookup in `self._probs_2` (keys `range(26) × [0, MAX_CARS]`). -/
noncomputable def probs_2_get (n np : ℤ) : Option ℝ :=
  if 0 ≤ n ∧ n < 26 ∧ 0 ≤ np ∧ np ≤ 20 then some (probs_2 n np) else none

/-- Source, `get_reward`: `self._rewards_1[state[0]] + self._rewards_2[state[1]]`,
with the two dictionary lookups able to raise KeyError. -/
noncomputable def get_reward (state : State) : Option ℝ :=
  match rewards_1_get state.1, rewards_2_get state.2 with
  | some r1, some r2 => some (r1 + r2)
  | _, _ => none

/-- Source, `step`: `new_state = (state[0] - action, state[1] + action)`;
`reward = self.get_reward(new_state)`; returns `(new_state, reward)`.
No validation of `state` is performed before the computation. -/
noncomputable def step (state : State) (action : ℤ) : Option (State × ℝ) :=
  (get_reward (state.1 - action, state.2 + action)).map
    (fun r => ((state.1 - action, state.2 + action), r))

/-- Source, `get_transition_probability`:
`self._probs_1[(state[0], new_state[0])] * self._probs_2[(state[1], new_state[1])]`,
with the two dictionary lookups able to raise KeyError. -/
noncomputable def get_transition_probability (state new_state : State) : Option ℝ :=
  match probs_1_get state.1 new_state.1, probs_2_get state.2 new_state.2 with
  | some p1, some p2 => some (p1 * p2)
  | _, _ => none

/-- Source, `bellman_expectation`: clamp the action, step to the morning state,
then accumulate `p * (r + DISCOUNT * V[new_n1, new_n2])` over the 21 x 21 grid
starting from `-CAR_MOVE_COST * abs(action)`.  For states on the grid all the
dictionary lookups performed by the source are within the key sets
(see `step_eq_on_domain` below), so the result is the plain real number. -/
noncomputable def bellman_expectation (V : Values) (state : State) (action : ℤ) : ℝ :=
  let a := get_valid_action state action;
  let m1 := state.1 - a;
  let m2 := state.2 + a;
  let r := rewards_1 m1 + rewards_2 m2;
  -CAR_MOVE_COST * ((|a| : ℤ) : ℝ) +
    ∑ n1 ∈ Finset.range 21, ∑ n2 ∈ Finset.range 21,
      probs_1 m1 n1 * probs_2 m2 n2 * (r + DISCOUNT * V ((n1 : ℤ), (n2 : ℤ)))

/-- Modelled from the spec, for comparison with `bellman_expectation` (claim C4):
"Return −movement cost + R + expected future value" with
"Expected future value = Σ Prob₁ · Prob₂ · (γ · valueTable[n1, n2])" — the
immediate reward `R` enters with coefficient exactly 1. -/
noncomputable def bellman_expectation_spec (V : Values) (state : State) (action : ℤ) : ℝ :=
  let a := get_valid_action state action;
  let m1 := state.1 - a;
  let m2 := state.2 + a;
  let r := rewards_1 m1 + rewards_2 m2;
  -CAR_MOVE_COST * ((|a| : ℤ) : ℝ) + r +
    ∑ n1 ∈ Finset.range 21, ∑ n2 ∈ Finset.range 21,
      probs_1 m1 n1 * probs_2 m2 n2 * (DISCOUNT * V ((n1 : ℤ), (n2 : ℤ)))

/-- Source, `policy_improvement` inner loop: running best action and best value,
`best_value = -float("inf")` modeled as `none`; update on strictly greater value. -/
noncomputable def argmaxLoop (f : ℤ → ℝ) : List ℤ → ℤ × Option ℝ → ℤ × Option ℝ
  | [], acc => acc
  | a :: rest, (best, bestVal) =>
    match bestVal with
    | none => argmaxLoop f rest (a, some (f a))
    | some v =>
      if v < f a then argmaxLoop f rest (a, some (f a))
      else argmaxLoop f rest (best, some v)

/-- Source, `policy_improvement`: for each state, initialize
`best_action = self.policy[state]`, `best_value = -inf`, scan
`get_available_actions(state)` greedily; build `new_policy` and return
`converged = (new_policy == self.policy).all()` over the grid.
The mutation `self.policy = new_policy.copy()` is the returned first component. -/
noncomputable def policy_improvement (V : Values) (p : Policy) : Policy × Bool :=
  let newPolicy : Policy := fun s =>
    (argmaxLoop (fun a => bellman_expectation V s a) (get_available_actions s) (p s, none)).1
  (newPolicy, gridList.all (fun s => newPolicy s == p s))

/-- Source, `policy_evaluation` inner sweep: sequentially write
`new_values[state] = self.bellman_expectation(state, policy[state])` for each
visited state, reading only the fixed snapshot `V`. -/
noncomputable def sweepLoop (V : Values) (p : Policy) : List State → Values → Values
  | [], newV => newV
  | s :: rest, newV =>
    sweepLoop V p rest (Function.update newV s (bellman_expectation V s (p s)))

/-- Source: `delta = np.max(np.abs(self.state_values - new_values))`. -/
noncomputable def sweepDelta (V newV : Values) : ℝ :=
  grid.sup' grid_nonempty (fun s => |V s - newV s|)

/-- Source, `policy_evaluation`: `while True:` sweep; return once
`delta < theta`.  The loop is indexed by fuel; `none` means the loop is still
running after that many sweeps.  The `raise ValueError` after the loop has no
corresponding case: the loop body ends every iteration with either `return` or
another iteration, so control never reaches the raise. -/
noncomputable def policy_evaluation (p : Policy) (theta : ℝ) : ℕ → Values → Option Values
  | 0, _ => none
  | fuel + 1, V =>
    let newV := sweepLoop V p gridList V
    if sweepDelta V newV < theta then some newV
    else policy_evaluation p theta fuel newV

/-- Source, `policy_iteration`: `while True:` evaluate then improve; return
when the policy is stable.  Fuel-indexed like `policy_evaluation`; the
`raise ValueError` after this loop is likewise unreachable. -/
noncomputable def policy_iteration (evalFuel : ℕ) (theta : ℝ) :
    ℕ → Policy → Values → Option (Policy × Values)
  | 0, _, _ => none
  | rounds + 1, p, V =>
    match policy_evaluation p theta evalFuel V with
    | none => none
    | some Vc =>
      let pr := policy_improvement Vc p
      if pr.2 then some (pr.1, Vc) else policy_iteration evalFuel theta rounds pr.1 Vc

/-- Source, `reset`: `self.policy = np.zeros((21, 21), np.int32)`. -/
def initial_policy : Policy := fun _ => 0

/-- Source, `reset`: `self.state_values = np.zeros((21, 21))`. -/
noncomputable def initial_values : Values := fun _ => 0

theorem poisson_nonneg {lam : ℝ} (h : 0 ≤ lam) (n : ℕ) :
    0 ≤ poisson_probability n lam := by
  unfold poisson_probability
  positivity

theorem poisson_zero (lam : ℝ) : poisson_probability 0 lam = Real.exp (-lam) := by
  unfold poisson_probability
  simp

theorem truncMass_nonneg {lam : ℝ} (h : 0 ≤ lam) : 0 ≤ truncMass lam :=
  Finset.sum_nonneg (fun k _ => poisson_nonneg h k)

theorem truncMass_le_one {lam : ℝ} (h : 0 ≤ lam) : truncMass lam ≤ 1 := by
  unfold truncMass poisson_probability
  rw [← Finset.mul_sum]
  calc Real.exp (-lam) * ∑ k ∈ Finset.range 26, lam ^ k / (k.factorial : ℝ) ≤
      Real.exp (-lam) * Real.exp lam :=
        mul_le_mul_of_nonneg_left (Real.sum_le_exp_of_nonneg h 26) (Real.exp_pos _).le
    _ = 1 := by rw [← Real.exp_add]; simp

theorem truncMass_lt_one {lam : ℝ} (h : 0 < lam) : truncMass lam < 1 := by
  unfold truncMass poisson_probability
  rw [← Finset.mul_sum]
  have h27 := Real.sum_le_exp_of_nonneg h.le 27
  rw [Finset.sum_range_succ] at h27
  have hterm : 0 < lam ^ 26 / ((Nat.factorial 26 : ℕ) : ℝ) := by positivity
  have hlt : ∑ k ∈ Finset.range 26, lam ^ k / (k.factorial : ℝ) < Real.exp lam := by
    linarith
  calc Real.exp (-lam) * ∑ k ∈ Finset.range 26, lam ^ k / (k.factorial : ℝ) <
      Real.exp (-lam) * Real.exp lam := mul_lt_mul_of_pos_left hlt (Real.exp_pos _)
    _ = 1 := by rw [← Real.exp_add]; simp

theorem exp_neg_le_truncMass {lam : ℝ} (h : 0 ≤ lam) :
    Real.exp (-lam) ≤ truncMass lam := by
  have h0 : poisson_probability 0 lam ≤ truncMass lam :=
    Finset.single_le_sum (fun k _ => poisson_nonneg h k) (Finset.mem_range.mpr (by omega))
  rw [poisson_zero] at h0
  exact h0

theorem newN_bounds (n : ℤ) (k j : ℕ) : 0 ≤ newN n k j ∧ newN n k j ≤ 20 := by
  unfold newN
  omega

theorem newN_mono {n m : ℤ} (h : n ≤ m) (k j : ℕ) : newN n k j ≤ newN m k j := by
  unfold newN
  omega

/-- Key reduction: a sum of `probsVal` over the 21 next states, weighted by any
function of the next state, collapses to the double sum over the truncated
request and dropoff counts. -/
theorem probsVal_weighted_sum (lr ld : ℝ) (n : ℤ) (g : ℤ → ℝ) :
    ∑ np ∈ Finset.range 21, probsVal lr ld n ((np : ℕ) : ℤ) * g ((np : ℕ) : ℤ) =
      ∑ k ∈ Finset.range 26, ∑ j ∈ Finset.range 26,
        poisson_probability k lr * poisson_probability j ld * g (newN n k j) := by
  unfold probsVal
  simp only [Finset.sum_mul, ite_mul, zero_mul]
  rw [Finset.sum_comm]
  refine Finset.sum_congr rfl (fun k _ => ?_)
  rw [Finset.sum_comm]
  refine Finset.sum_congr rfl (fun j _ => ?_)
  have hb := newN_bounds n k j
  rw [Finset.sum_eq_single (newN n k j).toNat]
  · rw [if_pos (by omega)]
    have harg : (((newN n k j).toNat : ℕ) : ℤ) = newN n k j := by omega
    rw [harg]
  · intro b _ hb2
    rw [if_neg (by omega)]
  · intro hmem
    exact absurd (Finset.mem_range.mpr (by omega)) hmem

/-- The rows of the transition tables all have the same total mass: the product
of the two truncated Poisson masses. -/
theorem probsVal_row_sum (lr ld : ℝ) (n : ℤ) :
    ∑ np ∈ Finset.range 21, probsVal lr ld n ((np : ℕ) : ℤ) =
      truncMass lr * truncMass ld := by
  have h := probsVal_weighted_sum lr ld n (fun _ => 1)
  simp only [mul_one] at h
  rw [h]
  unfold truncMass
  rw [Finset.sum_mul_sum]

theorem rewardsVal_nonneg {lam : ℝ} (h : 0 ≤ lam) {n : ℤ} (hn : 0 ≤ n) :
    0 ≤ rewardsVal lam n := by
  unfold rewardsVal
  apply Finset.sum_nonneg
  intro k _
  have hp := poisson_nonneg h k
  have hmin : (0 : ℝ) ≤ ((min (k : ℤ) n : ℤ) : ℝ) := by
    have : (0 : ℤ) ≤ min (k : ℤ) n := le_min (by positivity) hn
    exact_mod_cast this
  unfold CAR_RENTAL_COST
  exact mul_nonneg (mul_nonneg (by norm_num) hp) hmin

theorem rewardsVal_le {lam : ℝ} (h : 0 ≤ lam) (n : ℤ) : rewardsVal lam n ≤ 250 := by
  unfold rewardsVal
  calc ∑ k ∈ Finset.range 26,
      CAR_RENTAL_COST * poisson_probability k lam * ((min (k : ℤ) n : ℤ) : ℝ) ≤
      ∑ k ∈ Finset.range 26, 10 * poisson_probability k lam * 25 := by
        apply Finset.sum_le_sum
        intro k hk
        have hk25 : (k : ℤ) ≤ 25 := by
          have := Finset.mem_range.mp hk
          omega
        have hmin : ((min (k : ℤ) n : ℤ) : ℝ) ≤ 25 := by
          have : min (k : ℤ) n ≤ 25 := le_trans (min_le_left _ _) hk25
          exact_mod_cast this
        unfold CAR_RENTAL_COST
        exact mul_le_mul_of_nonneg_left hmin (mul_nonneg (by norm_num) (poisson_nonneg h k))
    _ = 250 * truncMass lam := by
        unfold truncMass
        rw [Finset.mul_sum]
        apply Finset.sum_congr rfl
        intro k _
        ring
    _ ≤ 250 * 1 := mul_le_mul_of_nonneg_left (truncMass_le_one h) (by norm_num)
    _ = 250 := by norm_num

theorem exp_six_lt_500 : Real.exp 6 < 500 := by
  have h1 : Real.exp 1 < 2.7182818286 := Real.exp_one_lt_d9
  have h6 : Real.exp 6 = Real.exp 1 ^ 6 := by
    rw [← Real.exp_nat_mul]
    norm_num
  rw [h6]
  calc Real.exp 1 ^ 6 < 2.7182818286 ^ 6 :=
        pow_lt_pow_left₀ h1 (Real.exp_pos 1).le (by norm_num)
    _ < 500 := by norm_num

theorem exp_neg_six_ge : (1 : ℝ) / 500 ≤ Real.exp (-6) := by
  rw [Real.exp_neg, ← one_div]
  exact one_div_le_one_div_of_le (Real.exp_pos 6) exp_six_lt_500.le

/-- Feasibility facts about the clamped action on grid states: magnitude at
most MAX_MOVE, source feasibility at both locations, and both morning
inventories inside the precomputed domain [0, MAX_CARS + MAX_MOVE]. -/
theorem get_valid_action_bounds {s : State} (h1 : 0 ≤ s.1) (h2 : s.1 ≤ 20)
    (h3 : 0 ≤ s.2) (h4 : s.2 ≤ 20) (a : ℤ) :
    -5 ≤ get_valid_action s a ∧ get_valid_action s a ≤ 5 ∧
      get_valid_action s a ≤ s.1 ∧ -(get_valid_action s a) ≤ s.2 ∧
      0 ≤ s.1 - get_valid_action s a ∧ s.1 - get_valid_action s a ≤ 25 ∧
      0 ≤ s.2 + get_valid_action s a ∧ s.2 + get_valid_action s a ≤ 25 := by
  unfold get_valid_action MAX_MOVE
  omega

theorem double_sum_mul_const (f g : ℕ → ℝ) (c : ℝ) :
    ∑ i ∈ Finset.range 21, ∑ j ∈ Finset.range 21, f i * g j * c =
      (∑ i ∈ Finset.range 21, f i) * (∑ j ∈ Finset.range 21, g j) * c := by
  calc ∑ i ∈ Finset.range 21, ∑ j ∈ Finset.range 21, f i * g j * c =
      ∑ i ∈ Finset.range 21, f i * ((∑ j ∈ Finset.range 21, g j) * c) := by
        apply Finset.sum_congr rfl
        intro i _
        simp only [mul_assoc]
        rw [← Finset.mul_sum, ← Finset.sum_mul]
    _ = (∑ i ∈ Finset.range 21, f i) * ((∑ j ∈ Finset.range 21, g j) * c) := by
        rw [← Finset.sum_mul]
    _ = (∑ i ∈ Finset.range 21, f i) * (∑ j ∈ Finset.range 21, g j) * c := by
        ring

/-- Row sum of the location-1 transition table. -/
theorem probs_1_row_sum (m : ℤ) :
    ∑ np ∈ Finset.range 21, probs_1 m ((np : ℕ) : ℤ) =
      truncMass REQUEST_1_LAMBDA * truncMass DROPOFF_1_LAMBDA := by
  unfold probs_1
  exact probsVal_row_sum _ _ m

/-- Row sum of the location-2 transition table. -/
theorem probs_2_row_sum (m : ℤ) :
    ∑ np ∈ Finset.range 21, probs_2 m ((np : ℕ) : ℤ) =
      truncMass REQUEST_2_LAMBDA * truncMass DROPOFF_B_LAMBDA := by
  unfold probs_2
  exact probsVal_row_sum _ _ m

theorem double_sum_bellman (P Q : ℕ → ℝ) (r c : ℝ) (W : ℕ → ℕ → ℝ) :
    ∑ i ∈ Finset.range 21, ∑ j ∈ Finset.range 21, P i * Q j * (r + c * W i j) =
      (∑ i ∈ Finset.range 21, P i) * (∑ j ∈ Finset.range 21, Q j) * r +
        c * ∑ i ∈ Finset.range 21, ∑ j ∈ Finset.range 21, P i * Q j * W i j := by
  simp only [mul_add, Finset.sum_add_distrib]
  congr 1
  · exact double_sum_mul_const P Q r
  · rw [Finset.mul_sum]
    apply Finset.sum_congr rfl
    intro i _
    rw [Finset.mul_sum]
    apply Finset.sum_congr rfl
    intro j _
    ring

/-- Algebraic normal form of `bellman_expectation`: the immediate reward term
is weighted by the product of the total (truncated) masses of the two morning
rows, and the future term factors the discount out. -/
theorem bellman_expectation_eq (V : Values) (s : State) (act : ℤ) :
    bellman_expectation V s act =
      -CAR_MOVE_COST * ((|get_valid_action s act| : ℤ) : ℝ) +
        (truncMass REQUEST_1_LAMBDA * truncMass DROPOFF_1_LAMBDA) *
          (truncMass REQUEST_2_LAMBDA * truncMass DROPOFF_B_LAMBDA) *
          (rewards_1 (s.1 - get_valid_action s act) +
            rewards_2 (s.2 + get_valid_action s act)) +
        DISCOUNT * ∑ n1 ∈ Finset.range 21, ∑ n2 ∈ Finset.range 21,
          probs_1 (s.1 - get_valid_action s act) n1 *
            probs_2 (s.2 + get_valid_action s act) n2 * V ((n1 : ℤ), (n2 : ℤ)) := by
  unfold bellman_expectation
  dsimp only []
  rw [double_sum_bellman]
  rw [probs_1_row_sum, probs_2_row_sum, ← add_assoc]

/-- The Bellman backup depends on the proposed action only through its clamped
value. -/
theorem bellman_congr {V : Values} {s : State} {a b : ℤ}
    (h : get_valid_action s a = get_valid_action s b) :
    bellman_expectation V s a = bellman_expectation V s b := by
  unfold bellman_expectation
  rw [h]

theorem argmaxLoop_cons_none (f : ℤ → ℝ) (a : ℤ) (rest : List ℤ) (b : ℤ) :
    argmaxLoop f (a :: rest) (b, none) = argmaxLoop f rest (a, some (f a)) := rfl

theorem argmaxLoop_cons_some (f : ℤ → ℝ) (a : ℤ) (rest : List ℤ) (b : ℤ) (v : ℝ) :
    argmaxLoop f (a :: rest) (b, some v) =
      if v < f a then argmaxLoop f rest (a, some (f a))
      else argmaxLoop f rest (b, some v) := rfl

theorem argmaxLoop_keep {f : ℤ → ℝ} : ∀ {l : List ℤ} {b : ℤ} {v : ℝ},
    (∀ x ∈ l, f x ≤ v) → argmaxLoop f l (b, some v) = (b, some v)
  | [], _, _, _ => rfl
  | a :: rest, b, v, h => by
    rw [argmaxLoop_cons_some, if_neg (not_lt.mpr (h a (List.mem_cons_self a rest)))]
    exact argmaxLoop_keep (fun x hx => h x (List.mem_cons_of_mem a hx))

theorem argmaxLoop_grows (f : ℤ → ℝ) : ∀ (l : List ℤ) (b : ℤ) (v : ℝ),
    ∃ w, (argmaxLoop f l (b, some v)).2 = some w ∧ v ≤ w ∧ ∀ x ∈ l, f x ≤ w := by
  intro l
  induction l with
  | nil => exact fun b v => ⟨v, rfl, le_rfl, by simp⟩
  | cons a rest ih =>
    intro b v
    rw [argmaxLoop_cons_some]
    by_cases hc : v < f a
    · rw [if_pos hc]
      obtain ⟨w, h1, h2, h3⟩ := ih a (f a)
      refine ⟨w, h1, le_trans hc.le h2, ?_⟩
      intro x hx
      rcases List.mem_cons.mp hx with rfl | hx
      · exact h2
      · exact h3 x hx
    · rw [if_neg hc]
      obtain ⟨w, h1, h2, h3⟩ := ih b v
      refine ⟨w, h1, h2, ?_⟩
      intro x hx
      rcases List.mem_cons.mp hx with rfl | hx
      · exact le_trans (not_lt.mp hc) h2
      · exact h3 x hx

theorem argmaxLoop_fst_spec (f : ℤ → ℝ) : ∀ (l : List ℤ) (b : ℤ) (v : ℝ),
    (argmaxLoop f l (b, some v)).1 = b ∨
      ∃ x ∈ l, (argmaxLoop f l (b, some v)).1 = x ∧ v < f x := by
  intro l
  induction l with
  | nil => exact fun b v => Or.inl rfl
  | cons a rest ih =>
    intro b v
    rw [argmaxLoop_cons_some]
    by_cases hc : v < f a
    · rw [if_pos hc]
      rcases ih a (f a) with h | ⟨x, hx, heq, hlt⟩
      · exact Or.inr ⟨a, List.mem_cons_self a rest, h, hc⟩
      · exact Or.inr ⟨x, List.mem_cons_of_mem a hx, heq, lt_trans hc hlt⟩
    · rw [if_neg hc]
      rcases ih b v with h | ⟨x, hx, heq, hlt⟩
      · exact Or.inl h
      · exact Or.inr ⟨x, List.mem_cons_of_mem a hx, heq, hlt⟩

theorem argmaxLoop_fst_mem {f : ℤ → ℝ} {a : ℤ} {rest : List ℤ} {b : ℤ} :
    (argmaxLoop f (a :: rest) (b, none)).1 ∈ a :: rest := by
  rw [argmaxLoop_cons_none]
  rcases argmaxLoop_fst_spec f rest a (f a) with h | ⟨x, hx, heq, _⟩
  · rw [h]
    exact List.mem_cons_self a rest
  · rw [heq]
    exact List.mem_cons_of_mem a hx

theorem argmaxLoop_append (f : ℤ → ℝ) : ∀ (l1 l2 : List ℤ) (acc : ℤ × Option ℝ),
    argmaxLoop f (l1 ++ l2) acc = argmaxLoop f l2 (argmaxLoop f l1 acc) := by
  intro l1
  induction l1 with
  | nil => intro l2 acc; rfl
  | cons a rest ih =>
    intro l2 acc
    obtain ⟨b, bv⟩ := acc
    cases bv with
    | none => rw [List.cons_append, argmaxLoop_cons_none, argmaxLoop_cons_none, ih]
    | some v =>
      rw [List.cons_append, argmaxLoop_cons_some, argmaxLoop_cons_some]
      by_cases hc : v < f a
      · rw [if_pos hc, if_pos hc, ih]
      · rw [if_neg hc, if_neg hc, ih]

theorem policy_improvement_fst (V : Values) (p : Policy) (s : State) :
    (policy_improvement V p).1 s =
      (argmaxLoop (fun a => bellman_expectation V s a)
        (get_available_actions s) (p s, none)).1 := rfl

theorem policy_improvement_snd (V : Values) (p : Policy) :
    (policy_improvement V p).2 =
      gridList.all (fun s => (policy_improvement V p).1 s == p s) := rfl

theorem policy_improvement_stable_iff (V : Values) (p : Policy) :
    (policy_improvement V p).2 = true ↔
      ∀ s ∈ gridList, (policy_improvement V p).1 s = p s := by
  rw [policy_improvement_snd]
  simp only [List.all_eq_true, beq_iff_eq]

theorem get_available_actions_cons {s : State} (h1 : 0 ≤ s.1) (h2 : 0 ≤ s.2) :
    get_available_actions s =
      max (-MAX_CARS) (-s.2) ::
        intRange (max (-MAX_CARS) (-s.2) + 1) (min MAX_CARS s.1 + 1) := by
  unfold get_available_actions
  exact intRange_cons (by unfold MAX_CARS; omega)

/-- The greedy action search never reads the incoming policy entry on grid
states: the initial best value `-inf` is beaten by the first enumerated
action, and the action list is never empty there. -/
theorem policy_improvement_indep (V : Values) (p q : Policy) (s : State)
    (h1 : 0 ≤ s.1) (h2 : 0 ≤ s.2) :
    (policy_improvement V p).1 s = (policy_improvement V q).1 s := by
  rw [policy_improvement_fst, policy_improvement_fst, get_available_actions_cons h1 h2,
    argmaxLoop_cons_none, argmaxLoop_cons_none]

theorem sweepLoop_nil (V : Values) (p : Policy) (init : Values) :
    sweepLoop V p [] init = init := rfl

theorem sweepLoop_cons (V : Values) (p : Policy) (s : State) (rest : List State)
    (init : Values) :
    sweepLoop V p (s :: rest) init =
      sweepLoop V p rest (Function.update init s (bellman_expectation V s (p s))) := rfl

theorem sweepLoop_not_mem {V : Values} {p : Policy} :
    ∀ {l : List State} {init : Values} {s : State},
      s ∉ l → sweepLoop V p l init s = init s := by
  intro l
  induction l with
  | nil => intro init s _; rfl
  | cons a rest ih =>
    intro init s hs
    rw [sweepLoop_cons]
    rw [ih (fun h => hs (List.mem_cons_of_mem a h))]
    refine Function.update_noteq (fun h => hs ?_) _ _
    rw [h]
    exact List.mem_cons_self a rest

/-- Every state visited by a sweep receives the Bellman backup of the snapshot
value table, regardless of what the output buffer previously held and
regardless of the position of the state in the visitation order. -/
theorem sweepLoop_mem {V : Values} {p : Policy} :
    ∀ {l : List State} {init : Values} {s : State},
      s ∈ l → sweepLoop V p l init s = bellman_expectation V s (p s) := by
  intro l
  induction l with
  | nil => intro init s hs; exact absurd hs (List.not_mem_nil s)
  | cons a rest ih =>
    intro init s hs
    rw [sweepLoop_cons]
    by_cases hmem : s ∈ rest
    · exact ih hmem
    · have hsa : s = a := by
        rcases List.mem_cons.mp hs with h | h
        · exact h
        · exact absurd h hmem
      subst hsa
      rw [sweepLoop_not_mem hmem, Function.update_same]

theorem sweepDelta_nonneg (V W : Values) : 0 ≤ sweepDelta V W := by
  unfold sweepDelta
  have h00 : ((0, 0) : State) ∈ grid := by decide
  calc (0 : ℝ) ≤ |V (0, 0) - W (0, 0)| := abs_nonneg _
    _ ≤ grid.sup' grid_nonempty (fun s => |V s - W s|) :=
        Finset.le_sup' (fun s => |V s - W s|) h00

theorem policy_evaluation_zero (p : Policy) (theta : ℝ) (V : Values) :
    policy_evaluation p theta 0 V = none := rfl

theorem policy_evaluation_succ (p : Policy) (theta : ℝ) (fuel : ℕ) (V : Values) :
    policy_evaluation p theta (fuel + 1) V =
      if sweepDelta V (sweepLoop V p gridList V) < theta
      then some (sweepLoop V p gridList V)
      else policy_evaluation p theta fuel (sweepLoop V p gridList V) := rfl

/-- With `theta = 0` the convergence test `delta < theta` can never pass, and
the evaluation loop runs forever: after any number of sweeps it is still
running, and no error is ever produced. -/
theorem policy_evaluation_theta_zero (p : Policy) :
    ∀ (fuel : ℕ) (V : Values), policy_evaluation p 0 fuel V = none := by
  intro fuel
  induction fuel with
  | zero => intro V; rfl
  | succ k ih =>
    intro V
    rw [policy_evaluation_succ, if_neg (not_lt.mpr (sweepDelta_nonneg _ _)), ih]

/-- The only way `policy_evaluation` produces a value table is by the
`delta < theta` return: any produced table is the sweep of some snapshot and
satisfies the convergence criterion against it. -/
theorem policy_evaluation_some {p : Policy} {theta : ℝ} :
    ∀ {fuel : ℕ} {V W : Values},
      policy_evaluation p theta fuel V = some W →
        ∃ Vp, W = sweepLoop Vp p gridList Vp ∧ sweepDelta Vp W < theta := by
  intro fuel
  induction fuel with
  | zero =>
    intro V W h
    rw [policy_evaluation_zero] at h
    exact absurd h (by simp)
  | succ k ih =>
    intro V W h
    rw [policy_evaluation_succ] at h
    by_cases hc : sweepDelta V (sweepLoop V p gridList V) < theta
    · rw [if_pos hc] at h
      obtain rfl := Option.some_injective _ h
      exact ⟨V, rfl, hc⟩
    · rw [if_neg hc] at h
      exact ih h

theorem policy_iteration_zero (ef : ℕ) (theta : ℝ) (p : Policy) (V : Values) :
    policy_iteration ef theta 0 p V = none := rfl

theorem policy_iteration_succ (ef : ℕ) (theta : ℝ) (rounds : ℕ) (p : Policy) (V : Values) :
    policy_iteration ef theta (rounds + 1) p V =
      match policy_evaluation p theta ef V with
      | none => none
      | some Vc =>
        if (policy_improvement Vc p).2 then some ((policy_improvement Vc p).1, Vc)
        else policy_iteration ef theta rounds (policy_improvement Vc p).1 Vc := rfl

theorem policy_iteration_succ_none {ef : ℕ} {theta : ℝ} {rounds : ℕ} {p : Policy}
    {V : Values} (hev : policy_evaluation p theta ef V = none) :
    policy_iteration ef theta (rounds + 1) p V = none := by
  rw [policy_iteration_succ, hev]

theorem policy_iteration_succ_some {ef : ℕ} {theta : ℝ} {rounds : ℕ} {p : Policy}
    {V : Values} {Vc : Values} (hev : policy_evaluation p theta ef V = some Vc) :
    policy_iteration ef theta (rounds + 1) p V =
      if (policy_improvement Vc p).2 then some ((policy_improvement Vc p).1, Vc)
      else policy_iteration ef theta rounds (policy_improvement Vc p).1 Vc := by
  rw [policy_iteration_succ, hev]

/-- The only way `policy_iteration` produces a result is by the stability
return: any produced pair is an improvement output whose stability flag is
true, together with its converged value table. -/
theorem policy_iteration_some {ef : ℕ} {theta : ℝ} :
    ∀ {rounds : ℕ} {p : Policy} {V : Values} {r : Policy × Values},
      policy_iteration ef theta rounds p V = some r →
        ∃ q Vc, r = ((policy_improvement Vc q).1, Vc) ∧
          (policy_improvement Vc q).2 = true := by
  intro rounds
  induction rounds with
  | zero =>
    intro p V r h
    rw [policy_iteration_zero] at h
    exact absurd h (by simp)
  | succ k ih =>
    intro p V r h
    cases hev : policy_evaluation p theta ef V with
    | none => rw [policy_iteration_succ_none hev] at h; exact absurd h (by simp)
    | some Vc =>
      rw [policy_iteration_succ_some hev] at h
      by_cases hst : (policy_improvement Vc p).2 = true
      · rw [if_pos hst] at h
        obtain rfl := Option.some_injective _ h
        exact ⟨p, Vc, rfl, hst⟩
      · rw [if_neg hst] at h
        exact ih h

theorem step_isSome_iff (s : State) (a : ℤ) :
    (step s a).isSome = true ↔
      0 ≤ s.1 - a ∧ s.1 - a < 26 ∧ 0 ≤ s.2 + a ∧ s.2 + a < 26 := by
  unfold step get_reward rewards_1_get rewards_2_get
  split_ifs with h1 h2 h2 <;> simp <;> omega

theorem get_transition_probability_isSome_iff (s t : State) :
    (get_transition_probability s t).isSome = true ↔
      (0 ≤ s.1 ∧ s.1 < 26 ∧ 0 ≤ t.1 ∧ t.1 ≤ 20) ∧
        (0 ≤ s.2 ∧ s.2 < 26 ∧ 0 ≤ t.2 ∧ t.2 ≤ 20) := by
  unfold get_transition_probability probs_1_get probs_2_get
  split_ifs with h1 h2 h2 <;> simp <;> omega

/-- Expected next-morning inventory at a location, starting from morning
inventory `m`, under the truncated transition model. -/
noncomputable def expectedNext (lr ld : ℝ) (m : ℤ) : ℝ :=
  ∑ k ∈ Finset.range 26, ∑ j ∈ Finset.range 26,
    poisson_probability k lr * poisson_probability j ld * ((newN m k j : ℤ) : ℝ)

theorem probsVal_first_moment (lr ld : ℝ) (m : ℤ) :
    ∑ np ∈ Finset.range 21, probsVal lr ld m ((np : ℕ) : ℤ) * ((np : ℕ) : ℝ) =
      expectedNext lr ld m := by
  unfold expectedNext
  have h := probsVal_weighted_sum lr ld m (fun z => (z : ℝ))
  simp only [Int.cast_natCast] at h
  exact h

theorem probs_1_first_moment (m : ℤ) :
    ∑ np ∈ Finset.range 21, probs_1 m ((np : ℕ) : ℤ) * ((np : ℕ) : ℝ) =
      expectedNext REQUEST_1_LAMBDA DROPOFF_1_LAMBDA m := by
  unfold probs_1
  exact probsVal_first_moment _ _ m

theorem expectedNext_gap {lr ld : ℝ} (hlr : 0 ≤ lr) (hld : 0 ≤ ld) {m : ℤ}
    (h0 : 0 ≤ m) (h4 : m ≤ 4) :
    expectedNext lr ld m + poisson_probability 0 lr * poisson_probability 0 ld ≤
      expectedNext lr ld 5 := by
  have htermj : ∀ (k : ℕ), ∀ j ∈ Finset.range 26,
      (0 : ℝ) ≤ poisson_probability k lr * poisson_probability j ld *
        (((newN 5 k j : ℤ) : ℝ) - ((newN m k j : ℤ) : ℝ)) := by
    intro k j _
    apply mul_nonneg (mul_nonneg (poisson_nonneg hlr k) (poisson_nonneg hld j))
    have hmono := newN_mono (show m ≤ 5 by omega) k j
    have hc : ((newN m k j : ℤ) : ℝ) ≤ ((newN 5 k j : ℤ) : ℝ) := by exact_mod_cast hmono
    linarith
  have hsub : expectedNext lr ld 5 - expectedNext lr ld m =
      ∑ k ∈ Finset.range 26, ∑ j ∈ Finset.range 26,
        poisson_probability k lr * poisson_probability j ld *
          (((newN 5 k j : ℤ) : ℝ) - ((newN m k j : ℤ) : ℝ)) := by
    unfold expectedNext
    rw [← Finset.sum_sub_distrib]
    apply Finset.sum_congr rfl
    intro k _
    rw [← Finset.sum_sub_distrib]
    apply Finset.sum_congr rfl
    intro j _
    ring
  have h00 : poisson_probability 0 lr * poisson_probability 0 ld ≤
      poisson_probability 0 lr * poisson_probability 0 ld *
        (((newN 5 0 0 : ℤ) : ℝ) - ((newN m 0 0 : ℤ) : ℝ)) := by
    have hval5 : newN 5 0 0 = 5 := by decide
    have hvalm : newN m 0 0 = m := by unfold newN; omega
    rw [hval5, hvalm]
    have hmr : ((m : ℤ) : ℝ) ≤ 4 := by exact_mod_cast h4
    have hfac : (1 : ℝ) ≤ ((5 : ℤ) : ℝ) - ((m : ℤ) : ℝ) := by
      push_cast
      linarith
    nlinarith [mul_nonneg (poisson_nonneg hlr 0) (poisson_nonneg hld 0)]
  have hinner : poisson_probability 0 lr * poisson_probability 0 ld *
      (((newN 5 0 0 : ℤ) : ℝ) - ((newN m 0 0 : ℤ) : ℝ)) ≤
      ∑ j ∈ Finset.range 26, poisson_probability 0 lr * poisson_probability j ld *
        (((newN 5 0 j : ℤ) : ℝ) - ((newN m 0 j : ℤ) : ℝ)) :=
    Finset.single_le_sum (htermj 0) (Finset.mem_range.mpr (by omega))
  have houter : ∑ j ∈ Finset.range 26, poisson_probability 0 lr * poisson_probability j ld *
      (((newN 5 0 j : ℤ) : ℝ) - ((newN m 0 j : ℤ) : ℝ)) ≤
      ∑ k ∈ Finset.range 26, ∑ j ∈ Finset.range 26,
        poisson_probability k lr * poisson_probability j ld *
          (((newN 5 k j : ℤ) : ℝ) - ((newN m k j : ℤ) : ℝ)) :=
    Finset.single_le_sum (fun k _ => Finset.sum_nonneg (htermj k))
      (Finset.mem_range.mpr (by omega))
  linarith

theorem double_sum_linear_first (P Q : ℕ → ℝ) (c : ℝ) :
    ∑ i ∈ Finset.range 21, ∑ j ∈ Finset.range 21, P i * Q j * (c * ((i : ℕ) : ℝ)) =
      c * (∑ i ∈ Finset.range 21, P i * ((i : ℕ) : ℝ)) * (∑ j ∈ Finset.range 21, Q j) := by
  have hstep : ∀ i : ℕ, ∑ j ∈ Finset.range 21, P i * Q j * (c * ((i : ℕ) : ℝ)) =
      P i * (c * ((i : ℕ) : ℝ)) * ∑ j ∈ Finset.range 21, Q j := by
    intro i
    rw [Finset.mul_sum]
    apply Finset.sum_congr rfl
    intro j _
    ring
  rw [Finset.sum_congr rfl (fun i _ => hstep i), ← Finset.sum_mul]
  have hfac : ∑ i ∈ Finset.range 21, P i * (c * ((i : ℕ) : ℝ)) =
      c * ∑ i ∈ Finset.range 21, P i * ((i : ℕ) : ℝ) := by
    rw [Finset.mul_sum]
    apply Finset.sum_congr rfl
    intro i _
    ring
  rw [hfac]

/-- A crafted value table rewarding inventory at location 1, used to exhibit
that policy improvement can store actions of magnitude above MAX_MOVE. -/
noncomputable def spikeValues : Values := fun t => 1000000000 * ((t.1 : ℤ) : ℝ)

/-- Value of the Bellman backup under the crafted linear value table. -/
theorem bellman_spike (s : State) (act : ℤ) :
    bellman_expectation spikeValues s act =
      -CAR_MOVE_COST * ((|get_valid_action s act| : ℤ) : ℝ) +
        (truncMass REQUEST_1_LAMBDA * truncMass DROPOFF_1_LAMBDA) *
          (truncMass REQUEST_2_LAMBDA * truncMass DROPOFF_B_LAMBDA) *
          (rewards_1 (s.1 - get_valid_action s act) +
            rewards_2 (s.2 + get_valid_action s act)) +
        DISCOUNT * (1000000000 *
          expectedNext REQUEST_1_LAMBDA DROPOFF_1_LAMBDA (s.1 - get_valid_action s act) *
          (truncMass REQUEST_2_LAMBDA * truncMass DROPOFF_B_LAMBDA)) := by
  rw [bellman_expectation_eq]
  congr 1
  unfold spikeValues
  simp only [Int.cast_natCast]
  rw [double_sum_linear_first (fun n1 => probs_1 (s.1 - get_valid_action s act) ((n1 : ℕ) : ℤ))
    (fun n2 => probs_2 (s.2 + get_valid_action s act) ((n2 : ℕ) : ℤ)) 1000000000]
  rw [probs_1_first_moment, probs_2_row_sum]

theorem p00_ge : (1 : ℝ) / 500 ≤
    poisson_probability 0 REQUEST_1_LAMBDA * poisson_probability 0 DROPOFF_1_LAMBDA := by
  rw [poisson_zero, poisson_zero, ← Real.exp_add]
  unfold REQUEST_1_LAMBDA DROPOFF_1_LAMBDA
  have harg : (-(3 : ℝ)) + -3 = -6 := by norm_num
  rw [harg]
  exact exp_neg_six_ge

theorem S2row_ge : (1 : ℝ) / 500 ≤ truncMass REQUEST_2_LAMBDA * truncMass DROPOFF_B_LAMBDA := by
  have h4 : Real.exp (-REQUEST_2_LAMBDA) ≤ truncMass REQUEST_2_LAMBDA :=
    exp_neg_le_truncMass (by unfold REQUEST_2_LAMBDA; norm_num)
  have h2 : Real.exp (-DROPOFF_B_LAMBDA) ≤ truncMass DROPOFF_B_LAMBDA :=
    exp_neg_le_truncMass (by unfold DROPOFF_B_LAMBDA; norm_num)
  calc (1 : ℝ) / 500 ≤ Real.exp (-6) := exp_neg_six_ge
    _ = Real.exp (-REQUEST_2_LAMBDA) * Real.exp (-DROPOFF_B_LAMBDA) := by
        rw [← Real.exp_add]
        unfold REQUEST_2_LAMBDA DROPOFF_B_LAMBDA
        norm_num
    _ ≤ truncMass REQUEST_2_LAMBDA * truncMass DROPOFF_B_LAMBDA :=
        mul_le_mul h4 h2 (Real.exp_pos _).le (le_trans (Real.exp_pos _).le h4)

theorem truncMass_mul_nonneg {la lb : ℝ} (ha : 0 ≤ la) (hb : 0 ≤ lb) :
    0 ≤ truncMass la * truncMass lb :=
  mul_nonneg (truncMass_nonneg ha) (truncMass_nonneg hb)

theorem truncMass_mul_le_one {la lb : ℝ} (ha : 0 ≤ la) (hb : 0 ≤ lb) :
    truncMass la * truncMass lb ≤ 1 :=
  mul_le_one₀ (truncMass_le_one ha) (truncMass_nonneg hb) (truncMass_le_one hb)

/-- Under the crafted value table, every strictly clamped negative action beats
every action in (-MAX_MOVE, 0]: moving the full 5 cars towards location 1 wins. -/
theorem spike_comparison {x : ℤ} (hx1 : -4 ≤ x) (hx2 : x ≤ 0) :
    bellman_expectation spikeValues (0, 20) x <
      bellman_expectation spikeValues (0, 20) (-20) := by
  have hvx : get_valid_action (0, 20) x = x := by
    unfold get_valid_action MAX_MOVE
    dsimp only
    omega
  have hv20 : get_valid_action (0, 20) (-20) = -5 := by decide
  rw [bellman_spike, bellman_spike, hvx, hv20]
  dsimp only
  have e1 : (0 : ℤ) - -5 = 5 := by norm_num
  have e2 : (20 : ℤ) + -5 = 15 := by norm_num
  have e3 : (0 : ℤ) - x = -x := by ring
  have e4 : ((|(-5 : ℤ)| : ℤ) : ℝ) = 5 := by norm_num
  rw [e1, e2, e3, e4]
  have hl1 : (0 : ℝ) ≤ REQUEST_1_LAMBDA := by unfold REQUEST_1_LAMBDA; norm_num
  have hl2 : (0 : ℝ) ≤ DROPOFF_1_LAMBDA := by unfold DROPOFF_1_LAMBDA; norm_num
  have hl3 : (0 : ℝ) ≤ REQUEST_2_LAMBDA := by unfold REQUEST_2_LAMBDA; norm_num
  have hl4 : (0 : ℝ) ≤ DROPOFF_B_LAMBDA := by unfold DROPOFF_B_LAMBDA; norm_num
  have hE := expectedNext_gap hl1 hl2 (show (0 : ℤ) ≤ -x by omega) (show -x ≤ 4 by omega)
  have hp := p00_ge
  have hS2 := S2row_ge
  have hS2le := truncMass_mul_le_one hl3 hl4
  have hS2nn := truncMass_mul_nonneg hl3 hl4
  have hS1le := truncMass_mul_le_one hl1 hl2
  have hS1nn := truncMass_mul_nonneg hl1 hl2
  have hRa : rewards_1 (-x) ≤ 250 := rewardsVal_le hl1 _
  have hRb : rewards_2 (20 + x) ≤ 250 := rewardsVal_le hl3 _
  have hRc : (0 : ℝ) ≤ rewards_1 5 := rewardsVal_nonneg hl1 (by norm_num)
  have hRd : (0 : ℝ) ≤ rewards_2 15 := rewardsVal_nonneg hl3 (by norm_num)
  have hxa1 : ((|x| : ℤ) : ℝ) ≤ 4 := by
    have : |x| ≤ 4 := abs_le.mpr ⟨by omega, by omega⟩
    exact_mod_cast this
  have hxa0 : (0 : ℝ) ≤ ((|x| : ℤ) : ℝ) := by
    have : (0 : ℤ) ≤ |x| := abs_nonneg x
    exact_mod_cast this
  have hgap : (1 : ℝ) / 500 ≤
      expectedNext REQUEST_1_LAMBDA DROPOFF_1_LAMBDA 5 -
        expectedNext REQUEST_1_LAMBDA DROPOFF_1_LAMBDA (-x) := by
    linarith
  have hbig : (1 : ℝ) / 500 * (1 / 500) ≤
      (expectedNext REQUEST_1_LAMBDA DROPOFF_1_LAMBDA 5 -
        expectedNext REQUEST_1_LAMBDA DROPOFF_1_LAMBDA (-x)) *
        (truncMass REQUEST_2_LAMBDA * truncMass DROPOFF_B_LAMBDA) :=
    mul_le_mul hgap hS2 (by norm_num) (by linarith)
  have hdelta : -(500 : ℝ) ≤
      (rewards_1 5 + rewards_2 15) - (rewards_1 (-x) + rewards_2 (20 + x)) := by
    linarith
  have hprod1 : (truncMass REQUEST_1_LAMBDA * truncMass DROPOFF_1_LAMBDA) *
      (truncMass REQUEST_2_LAMBDA * truncMass DROPOFF_B_LAMBDA) * (-500) ≤
      (truncMass REQUEST_1_LAMBDA * truncMass DROPOFF_1_LAMBDA) *
      (truncMass REQUEST_2_LAMBDA * truncMass DROPOFF_B_LAMBDA) *
      ((rewards_1 5 + rewards_2 15) - (rewards_1 (-x) + rewards_2 (20 + x))) :=
    mul_le_mul_of_nonneg_left hdelta (mul_nonneg hS1nn hS2nn)
  have hprod2 : (1 : ℝ) * (-500) ≤
      (truncMass REQUEST_1_LAMBDA * truncMass DROPOFF_1_LAMBDA) *
      (truncMass REQUEST_2_LAMBDA * truncMass DROPOFF_B_LAMBDA) * (-500) :=
    mul_le_mul_of_nonpos_right (mul_le_one₀ hS1le hS2nn hS2le) (by norm_num)
  unfold CAR_MOVE_COST DISCOUNT
  nlinarith [hprod1, hprod2, hbig]

/-- On the crafted value table, policy improvement writes the raw action -20
at state (0, 20): the actions -20 .. -5 all clamp to -5 and tie, the running
strict-maximum keeps the first of them, and every milder action is worse. -/
theorem spike_selects :
    (policy_improvement spikeValues initial_policy).1 (0, 20) = -20 := by
  rw [policy_improvement_fst]
  have hacts : get_available_actions (0, 20) = intRange (-20) 1 := by
    unfold get_available_actions MAX_CARS
    norm_num
  rw [hacts, intRange_cons (by norm_num), argmaxLoop_cons_none]
  have hm1 : (-20 : ℤ) + 1 = -19 := by norm_num
  rw [hm1]
  have hall : ∀ y ∈ intRange (-19) 1,
      bellman_expectation spikeValues (0, 20) y ≤
        bellman_expectation spikeValues (0, 20) (-20) := by
    intro y hy
    have hy' := intRange_mem.mp hy
    by_cases hc : y ≤ -5
    · refine le_of_eq (bellman_congr ?_)
      unfold get_valid_action MAX_MOVE
      dsimp only
      omega
    · exact (spike_comparison (by omega) (by omega)).le
  rw [argmaxLoop_keep hall]

theorem policy_improvement_mem (V : Values) (p : Policy) {s : State}
    (h1 : 0 ≤ s.1) (h2 : 0 ≤ s.2) :
    (policy_improvement V p).1 s ∈ get_available_actions s := by
  rw [policy_improvement_fst, get_available_actions_cons h1 h2]
  exact argmaxLoop_fst_mem

theorem policy_improvement_bounds (V : Values) (p : Policy) {s : State}
    (h1 : 0 ≤ s.1) (h2 : 0 ≤ s.2) :
    max (-MAX_CARS) (-s.2) ≤ (policy_improvement V p).1 s ∧
      (policy_improvement V p).1 s ≤ min MAX_CARS s.1 := by
  have hm := policy_improvement_mem V p h1 h2
  unfold get_available_actions at hm
  have hmem := intRange_mem.mp hm
  omega

/-- The improved policy never stores an action above MAX_MOVE: the first
enumerated action of the upper tied block is MAX_MOVE itself, and the strict
improvement test rejects all its later equal-valued raw actions. -/
theorem policy_improvement_le_five (V : Values) (p : Policy) (s : State)
    (h1 : 0 ≤ s.1) (h2 : s.1 ≤ 20) (h3 : 0 ≤ s.2) (h4 : s.2 ≤ 20) :
    (policy_improvement V p).1 s ≤ 5 := by
  by_cases hsmall : s.1 ≤ 5
  · have hb := (policy_improvement_bounds V p h1 h3).2
    unfold MAX_CARS at hb
    omega
  · rw [policy_improvement_fst]
    have hsplit : get_available_actions s =
        intRange (max (-MAX_CARS) (-s.2)) 6 ++ intRange 6 (min MAX_CARS s.1 + 1) := by
      unfold get_available_actions
      exact intRange_append (by unfold MAX_CARS; omega) (by unfold MAX_CARS; omega)
    have hlo : max (-MAX_CARS) (-s.2) < 6 := by unfold MAX_CARS; omega
    rw [hsplit, argmaxLoop_append, intRange_cons hlo, argmaxLoop_cons_none]
    obtain ⟨w, hw2, hwlo, hwall⟩ :=
      argmaxLoop_grows (fun a => bellman_expectation V s a)
        (intRange (max (-MAX_CARS) (-s.2) + 1) 6) (max (-MAX_CARS) (-s.2))
        (bellman_expectation V s (max (-MAX_CARS) (-s.2)))
    have haccfst : (argmaxLoop (fun a => bellman_expectation V s a)
        (intRange (max (-MAX_CARS) (-s.2) + 1) 6)
        (max (-MAX_CARS) (-s.2),
          some (bellman_expectation V s (max (-MAX_CARS) (-s.2))))).1 ≤ 5 := by
      rcases argmaxLoop_fst_spec (fun a => bellman_expectation V s a)
          (intRange (max (-MAX_CARS) (-s.2) + 1) 6) (max (-MAX_CARS) (-s.2))
          (bellman_expectation V s (max (-MAX_CARS) (-s.2))) with h | ⟨y, hy, heq, _⟩
      · rw [h]
        unfold MAX_CARS
        omega
      · rw [heq]
        have := intRange_mem.mp hy
        omega
    have hkeep : ∀ y ∈ intRange 6 (min MAX_CARS s.1 + 1),
        bellman_expectation V s y ≤ w := by
      intro y hy
      have hy' := intRange_mem.mp hy
      unfold MAX_CARS at hy'
      have h5w : bellman_expectation V s 5 ≤ w := by
        apply hwall
        rw [intRange_mem]
        unfold MAX_CARS
        omega
      have hfy : bellman_expectation V s y = bellman_expectation V s 5 := by
        apply bellman_congr
        unfold get_valid_action MAX_MOVE
        omega
      rw [hfy]
      exact h5w
    have hpair : argmaxLoop (fun a => bellman_expectation V s a)
        (intRange (max (-MAX_CARS) (-s.2) + 1) 6)
        (max (-MAX_CARS) (-s.2),
          some (bellman_expectation V s (max (-MAX_CARS) (-s.2)))) =
        ((argmaxLoop (fun a => bellman_expectation V s a)
          (intRange (max (-MAX_CARS) (-s.2) + 1) 6)
          (max (-MAX_CARS) (-s.2),
            some (bellman_expectation V s (max (-MAX_CARS) (-s.2))))).1, some w) := by
      rw [← hw2]
    rw [hpair, argmaxLoop_keep hkeep]
    exact haccfst

theorem exp_nat_le_pow (n : ℕ) : Real.exp ((n : ℕ) : ℝ) ≤ 2.7182818286 ^ n := by
  have h : Real.exp ((n : ℕ) : ℝ) = Real.exp 1 ^ n := by
    rw [← Real.exp_nat_mul]
    norm_num
  rw [h]
  exact pow_le_pow_left₀ (Real.exp_pos 1).le Real.exp_one_lt_d9.le n

/-- Generic lower bound for the truncated Poisson mass: if a rational upper
bound `U` on `exp lam` is already within 1e-6 of the truncated series, the
truncated mass is within 1e-6 of 1. -/
theorem truncMass_lower {lam U : ℝ} (hlam : 0 ≤ lam) (hU : Real.exp lam ≤ U)
    (hQ : U - ∑ k ∈ Finset.range 26, lam ^ k / (k.factorial : ℝ) ≤ 1 / 1000000) :
    1 - 1 / 1000000 ≤ truncMass lam := by
  have hQdef : truncMass lam =
      Real.exp (-lam) * ∑ k ∈ Finset.range 26, lam ^ k / (k.factorial : ℝ) := by
    unfold truncMass poisson_probability
    rw [← Finset.mul_sum]
  have hsum := Real.sum_le_exp_of_nonneg hlam 26
  have hble : Real.exp lam - ∑ k ∈ Finset.range 26, lam ^ k / (k.factorial : ℝ) ≤
      U - ∑ k ∈ Finset.range 26, lam ^ k / (k.factorial : ℝ) := by linarith
  have hbnn : 0 ≤ Real.exp lam - ∑ k ∈ Finset.range 26, lam ^ k / (k.factorial : ℝ) := by
    linarith
  have hexple : Real.exp (-lam) ≤ 1 := by
    rw [show (1 : ℝ) = Real.exp 0 from (Real.exp_zero).symm]
    exact Real.exp_le_exp.mpr (by linarith)
  have hkey : Real.exp (-lam) *
      (Real.exp lam - ∑ k ∈ Finset.range 26, lam ^ k / (k.factorial : ℝ)) ≤
      1 * (U - ∑ k ∈ Finset.range 26, lam ^ k / (k.factorial : ℝ)) :=
    mul_le_mul hexple hble hbnn zero_le_one
  have hexpand : Real.exp (-lam) *
      (Real.exp lam - ∑ k ∈ Finset.range 26, lam ^ k / (k.factorial : ℝ)) =
      1 - truncMass lam := by
    rw [hQdef, mul_sub, ← Real.exp_add]
    norm_num
  linarith

theorem truncMass_close_3 : 1 - 1 / 1000000 ≤ truncMass 3 := by
  have hU : Real.exp 3 ≤ 2.7182818286 ^ 3 := by
    have h := exp_nat_le_pow 3
    norm_num at h ⊢
    exact h
  refine truncMass_lower (by norm_num) hU ?_
  norm_num [Finset.sum_range_succ, Nat.factorial]

theorem truncMass_close_4 : 1 - 1 / 1000000 ≤ truncMass 4 := by
  have hU : Real.exp 4 ≤ 2.7182818286 ^ 4 := by
    have h := exp_nat_le_pow 4
    norm_num at h ⊢
    exact h
  refine truncMass_lower (by norm_num) hU ?_
  norm_num [Finset.sum_range_succ, Nat.factorial]

theorem truncMass_close_2 : 1 - 1 / 1000000 ≤ truncMass 2 := by
  have hU : Real.exp 2 ≤ 2.7182818286 ^ 2 := by
    have h := exp_nat_le_pow 2
    norm_num at h ⊢
    exact h
  refine truncMass_lower (by norm_num) hU ?_
  norm_num [Finset.sum_range_succ, Nat.factorial]

/-- C2 counterexample: the claim says every action returned by
`get_available_actions` has magnitude at most MAX_MOVE, but at state (20, 20)
the returned list contains 6 (indeed every integer from -20 to 20): the code
performs no clipping to [-MAX_MOVE, MAX_MOVE]. -/
theorem C2_counterexample :
    (6 : ℤ) ∈ get_available_actions (20, 20) ∧ ¬(|(6 : ℤ)| ≤ MAX_MOVE) := by
  constructor
  · unfold get_available_actions MAX_CARS
    rw [intRange_mem]
    dsimp only
    omega
  · unfold MAX_MOVE
    decide

/-- C2 (amended): for every state, `get_available_actions` returns exactly the
integers from max(-MAX_CARS, -n2) to min(MAX_CARS, n1), in strictly ascending
order; there is no further clipping to [-MAX_MOVE, MAX_MOVE], so returned
actions may have magnitude up to MAX_CARS. -/
theorem C2_available_actions (s : State) (a : ℤ) :
    (a ∈ get_available_actions s ↔
      max (-MAX_CARS) (-s.2) ≤ a ∧ a ≤ min MAX_CARS s.1) ∧
      (get_available_actions s).Pairwise (· < ·) := by
  constructor
  · unfold get_available_actions
    rw [intRange_mem]
    omega
  · exact intRange_sorted

/-- C3 counterexample: the claim says the clamped action never pushes the
destination above MAX_CARS, but at state (20, 20) the proposed action 5 is
returned unchanged and the destination ends up with 25 cars. -/
theorem C3_counterexample :
    get_valid_action (20, 20) 5 = 5 ∧
      ¬((20 : ℤ) + get_valid_action (20, 20) 5 ≤ MAX_CARS) := by
  constructor
  · decide
  · unfold MAX_CARS
    decide

/-- C3 (amended): for grid states, `get_valid_action` returns an action of
magnitude at most MAX_MOVE that never removes more cars than available at the
source of the move; the destination, however, is only bounded by
MAX_CARS + MAX_MOVE (the precomputed model domain), not by MAX_CARS. -/
theorem C3_valid_action (s : State) (a : ℤ) (h1 : 0 ≤ s.1) (h2 : s.1 ≤ MAX_CARS)
    (h3 : 0 ≤ s.2) (h4 : s.2 ≤ MAX_CARS) :
    |get_valid_action s a| ≤ MAX_MOVE ∧ get_valid_action s a ≤ s.1 ∧
      -(get_valid_action s a) ≤ s.2 ∧
      s.1 - get_valid_action s a ≤ MAX_CARS + MAX_MOVE ∧
      s.2 + get_valid_action s a ≤ MAX_CARS + MAX_MOVE := by
  unfold MAX_CARS at h2 h4 ⊢
  unfold MAX_MOVE
  have h := get_valid_action_bounds h1 h2 h3 h4 a
  rw [abs_le]
  omega

/-- Witness for C3 (amended) at state (2, 3) with proposed action 7. -/
theorem C3_valid_action_witness :
    |get_valid_action (2, 3) 7| ≤ MAX_MOVE ∧
      get_valid_action (2, 3) 7 ≤ ((2, 3) : State).1 ∧
      -(get_valid_action (2, 3) 7) ≤ ((2, 3) : State).2 ∧
      ((2, 3) : State).1 - get_valid_action (2, 3) 7 ≤ MAX_CARS + MAX_MOVE ∧
      ((2, 3) : State).2 + get_valid_action (2, 3) 7 ≤ MAX_CARS + MAX_MOVE :=
  C3_valid_action (2, 3) 7 (by decide) (by decide) (by decide) (by decide)

/-- C5: during a sweep every visited state receives exactly the Bellman backup
of the snapshot table the sweep started from; the written value does not
depend on the visitation order (beyond the state being visited) nor on the
previous contents of the output buffer, so the sweep is synchronous and
order-independent. -/
theorem C5_sweep_synchronous (V : Values) (p : Policy) (order : List State)
    (init : Values) (s : State) (h : s ∈ order) :
    sweepLoop V p order init s = bellman_expectation V s (p s) :=
  sweepLoop_mem h

/-- Witness for C5 at state (0, 0) with the row-major visitation order of the
source, the zero snapshot and the zero policy. -/
theorem C5_sweep_synchronous_witness :
    sweepLoop initial_values initial_policy gridList initial_values (0, 0) =
      bellman_expectation initial_values (0, 0) (initial_policy (0, 0)) :=
  C5_sweep_synchronous initial_values initial_policy gridList initial_values (0, 0)
    (mem_gridList.mpr (by decide))

/-- C6 counterexample: the claim says exceeding a defensive cap raises a
DivergenceError; but with theta = 0 (a legal argument) the convergence test
can never pass and after 100 sweeps — beyond any cap — the loop is simply
still running: no error value is ever produced, the raise after the loop being
unreachable. -/
theorem C6_counterexample :
    policy_evaluation initial_policy 0 100 initial_values = none :=
  policy_evaluation_theta_zero initial_policy 100 initial_values

/-- C6 (amended): neither `policy_evaluation` nor `policy_iteration` has a
reachable error path: for any fuel, each either is still looping (`none`) or
returned through its convergence/stability test; the trailing raise
statements are dead code and there is no defensive cap. -/
theorem C6_no_error_path (p : Policy) (theta : ℝ) (fuel : ℕ) (V : Values)
    (ef rounds : ℕ) :
    (policy_evaluation p theta fuel V = none ∨
      ∃ W, policy_evaluation p theta fuel V = some W ∧
        ∃ Vp, W = sweepLoop Vp p gridList Vp ∧ sweepDelta Vp W < theta) ∧
      (policy_iteration ef theta rounds p V = none ∨
        ∃ res, policy_iteration ef theta rounds p V = some res ∧
          ∃ q Vc, res = ((policy_improvement Vc q).1, Vc) ∧
            (policy_improvement Vc q).2 = true) := by
  constructor
  · cases hres : policy_evaluation p theta fuel V with
    | none => exact Or.inl rfl
    | some W => exact Or.inr ⟨W, rfl, policy_evaluation_some hres⟩
  · cases hres : policy_iteration ef theta rounds p V with
    | none => exact Or.inl rfl
    | some res => exact Or.inr ⟨res, rfl, policy_iteration_some hres⟩

/-- C7 counterexample: state (25, 0) has a component outside [0, MAX_CARS],
yet `step` runs to completion and returns a result — no validation error of
any kind is raised before (or during) the computation. -/
theorem C7_counterexample :
    (step (25, 0) 0).isSome = true ∧ ¬((25 : ℤ) ≤ MAX_CARS) := by
  constructor
  · rw [step_isSome_iff]
    dsimp only
    omega
  · unfold MAX_CARS
    decide

/-- C7 (amended): no InvalidStateError exists and no pre-validation happens:
`step` fails only by a missing dictionary key, i.e. exactly when a morning
inventory falls outside the precomputed domain [0, MAX_CARS + MAX_MOVE], and
the transition lookup likewise succeeds exactly on its key ranges. -/
theorem C7_no_validation (s t : State) (a : ℤ) :
    ((step s a).isSome = true ↔
      0 ≤ s.1 - a ∧ s.1 - a ≤ MAX_CARS + MAX_MOVE ∧
        0 ≤ s.2 + a ∧ s.2 + a ≤ MAX_CARS + MAX_MOVE) ∧
      ((get_transition_probability s t).isSome = true ↔
        (0 ≤ s.1 ∧ s.1 ≤ MAX_CARS + MAX_MOVE ∧ 0 ≤ t.1 ∧ t.1 ≤ MAX_CARS) ∧
          (0 ≤ s.2 ∧ s.2 ≤ MAX_CARS + MAX_MOVE ∧ 0 ≤ t.2 ∧ t.2 ≤ MAX_CARS)) := by
  unfold MAX_CARS MAX_MOVE
  constructor
  · rw [step_isSome_iff]
    omega
  · rw [get_transition_probability_isSome_iff]
    omega

/-- C10: the new policy array produced by `policy_improvement` does not depend
on the incoming policy array: on every grid state two runs from the same value
table produce identical entries, because the running best value starts at
-inf and the first enumerated action always overwrites the initialization
taken from the old policy. -/
theorem C10_policy_independent (V : Values) (p q : Policy) (s : State)
    (h1 : 0 ≤ s.1) (h2 : 0 ≤ s.2) :
    (policy_improvement V p).1 s = (policy_improvement V q).1 s :=
  policy_improvement_indep V p q s h1 h2

/-- Witness for C10 at state (0, 0), comparing the zero policy with the
constant-1 policy over the zero value table. -/
theorem C10_policy_independent_witness :
    (policy_improvement initial_values initial_policy).1 (0, 0) =
      (policy_improvement initial_values (fun _ => 1)).1 (0, 0) :=
  C10_policy_independent initial_values initial_policy (fun _ => 1) (0, 0)
    (by decide) (by decide)

theorem rewardsVal_pos {lam : ℝ} (h : 0 < lam) {n : ℤ} (hn : 1 ≤ n) :
    0 < rewardsVal lam n := by
  unfold rewardsVal
  have hterm : 0 < CAR_RENTAL_COST * poisson_probability 1 lam *
      ((min ((1 : ℕ) : ℤ) n : ℤ) : ℝ) := by
    have hmin : min ((1 : ℕ) : ℤ) n = 1 := by omega
    rw [hmin]
    unfold CAR_RENTAL_COST poisson_probability
    have he := Real.exp_pos (-lam)
    have hp : (0 : ℝ) < lam ^ 1 / ((Nat.factorial 1 : ℕ) : ℝ) := by
      simp only [pow_one, Nat.factorial]
      norm_num
      exact h
    norm_num
    positivity
  have hnonneg : ∀ k ∈ Finset.range 26, k ≠ 1 →
      (0 : ℝ) ≤ CAR_RENTAL_COST * poisson_probability k lam *
        ((min ((k : ℕ) : ℤ) n : ℤ) : ℝ) := by
    intro k _ _
    have hp := poisson_nonneg h.le k
    have hmin : (0 : ℝ) ≤ ((min ((k : ℕ) : ℤ) n : ℤ) : ℝ) := by
      have : (0 : ℤ) ≤ min ((k : ℕ) : ℤ) n := le_min (by positivity) (by omega)
      exact_mod_cast this
    unfold CAR_RENTAL_COST
    exact mul_nonneg (mul_nonneg (by norm_num) hp) hmin
  apply Finset.sum_pos'
  · intro k hk
    by_cases hone : k = 1
    · subst hone
      exact hterm.le
    · exact hnonneg k hk hone
  · exact ⟨1, Finset.mem_range.mpr (by omega), hterm⟩

/-- The product of the four truncated masses is strictly below one. -/
theorem total_mass_lt_one :
    truncMass REQUEST_1_LAMBDA * truncMass DROPOFF_1_LAMBDA *
      (truncMass REQUEST_2_LAMBDA * truncMass DROPOFF_B_LAMBDA) < 1 := by
  have h3 : truncMass REQUEST_1_LAMBDA < 1 := by
    unfold REQUEST_1_LAMBDA
    exact truncMass_lt_one (by norm_num)
  have h3b : 0 ≤ truncMass DROPOFF_1_LAMBDA := by
    unfold DROPOFF_1_LAMBDA
    exact truncMass_nonneg (by norm_num)
  have h3c : truncMass DROPOFF_1_LAMBDA ≤ 1 := by
    unfold DROPOFF_1_LAMBDA
    exact truncMass_le_one (by norm_num)
  have h3a : 0 ≤ truncMass REQUEST_1_LAMBDA := by
    unfold REQUEST_1_LAMBDA
    exact truncMass_nonneg (by norm_num)
  have hS2le : truncMass REQUEST_2_LAMBDA * truncMass DROPOFF_B_LAMBDA ≤ 1 := by
    refine truncMass_mul_le_one ?_ ?_ <;>
      norm_num [REQUEST_2_LAMBDA, DROPOFF_B_LAMBDA]
  have hS2nn : 0 ≤ truncMass REQUEST_2_LAMBDA * truncMass DROPOFF_B_LAMBDA := by
    refine truncMass_mul_nonneg ?_ ?_ <;>
      norm_num [REQUEST_2_LAMBDA, DROPOFF_B_LAMBDA]
  nlinarith [mul_nonneg h3a h3b, mul_le_mul_of_nonneg_left h3c h3a,
    mul_le_mul_of_nonneg_left hS2le (mul_nonneg h3a h3b)]

/-- C1 counterexample: improving a zero policy against a legal value table
stores the raw action -20 at state (0, 20) — a policy entry whose magnitude
exceeds MAX_MOVE. -/
theorem C1_counterexample :
    (policy_improvement spikeValues initial_policy).1 (0, 20) = -20 ∧
      ¬(|(policy_improvement spikeValues initial_policy).1 (0, 20)| ≤ MAX_MOVE) := by
  refine ⟨spike_selects, ?_⟩
  rw [spike_selects]
  unfold MAX_MOVE
  decide

/-- C1 (amended): after reset every policy entry is 0; after
`policy_improvement` every grid entry lies in the available-action interval
[max(-MAX_CARS, -n2), min(MAX_CARS, n1)] and never exceeds MAX_MOVE from
above, so its magnitude is bounded by MAX_CARS but not by MAX_MOVE; the policy
returned by `policy_iteration` satisfies the same bounds. -/
theorem C1_policy_range (V : Values) (p : Policy) (s : State)
    (h1 : 0 ≤ s.1) (h2 : s.1 ≤ MAX_CARS) (h3 : 0 ≤ s.2) (h4 : s.2 ≤ MAX_CARS) :
    initial_policy s = 0 ∧
      (max (-MAX_CARS) (-s.2) ≤ (policy_improvement V p).1 s ∧
        (policy_improvement V p).1 s ≤ min MAX_CARS s.1 ∧
        (policy_improvement V p).1 s ≤ MAX_MOVE ∧
        |(policy_improvement V p).1 s| ≤ MAX_CARS) ∧
      ∀ ef theta rounds (q : Policy) (V0 : Values) res,
        policy_iteration ef theta rounds q V0 = some res →
          res.1 s ≤ MAX_MOVE ∧ |res.1 s| ≤ MAX_CARS := by
  have h2' : s.1 ≤ 20 := by unfold MAX_CARS at h2; omega
  have h4' : s.2 ≤ 20 := by unfold MAX_CARS at h4; omega
  have hbounds := policy_improvement_bounds V p h1 h3
  have hfive := policy_improvement_le_five V p s h1 h2' h3 h4'
  refine ⟨rfl, ⟨hbounds.1, hbounds.2, ?_, ?_⟩, ?_⟩
  · unfold MAX_MOVE
    exact hfive
  · rw [abs_le]
    unfold MAX_CARS at hbounds ⊢
    omega
  · intro ef theta rounds q V0 res hres
    obtain ⟨q2, Vc, rfl, _⟩ := policy_iteration_some hres
    dsimp only
    have hb2 := policy_improvement_bounds Vc q2 h1 h3
    have hf2 := policy_improvement_le_five Vc q2 s h1 h2' h3 h4'
    constructor
    · unfold MAX_MOVE
      exact hf2
    · rw [abs_le]
      unfold MAX_CARS at hb2 ⊢
      omega

/-- Witness for C1 (amended) at state (0, 0) over the zero tables. -/
theorem C1_policy_range_witness :
    initial_policy (0, 0) = 0 ∧
      (max (-MAX_CARS) (-((0, 0) : State).2) ≤
          (policy_improvement initial_values initial_policy).1 (0, 0) ∧
        (policy_improvement initial_values initial_policy).1 (0, 0) ≤
          min MAX_CARS ((0, 0) : State).1 ∧
        (policy_improvement initial_values initial_policy).1 (0, 0) ≤ MAX_MOVE ∧
        |(policy_improvement initial_values initial_policy).1 (0, 0)| ≤ MAX_CARS) ∧
      ∀ ef theta rounds (q : Policy) (V0 : Values) res,
        policy_iteration ef theta rounds q V0 = some res →
          res.1 (0, 0) ≤ MAX_MOVE ∧ |res.1 (0, 0)| ≤ MAX_CARS :=
  C1_policy_range initial_values initial_policy (0, 0)
    (by decide) (by decide) (by decide) (by decide)

/-- C4 counterexample: at state (20, 20) with action 0 and the zero value
table, the code and the specified formula disagree: the code weights the
immediate reward by the truncated total transition mass, which is strictly
below one, while the spec adds the reward with coefficient exactly one. -/
theorem C4_counterexample :
    bellman_expectation initial_values (20, 20) 0 ≠
      bellman_expectation_spec initial_values (20, 20) 0 := by
  have hv : get_valid_action (20, 20) 0 = 0 := by decide
  rw [bellman_expectation_eq, hv]
  unfold bellman_expectation_spec
  dsimp only
  rw [hv]
  have hfut : ∑ n1 ∈ Finset.range 21, ∑ n2 ∈ Finset.range 21,
      probs_1 ((20 : ℤ) - 0) ((n1 : ℕ) : ℤ) * probs_2 ((20 : ℤ) + 0) ((n2 : ℕ) : ℤ) *
        initial_values (((n1 : ℕ) : ℤ), ((n2 : ℕ) : ℤ)) = 0 := by
    apply Finset.sum_eq_zero
    intro n1 _
    apply Finset.sum_eq_zero
    intro n2 _
    unfold initial_values
    ring
  have hfut2 : ∑ n1 ∈ Finset.range 21, ∑ n2 ∈ Finset.range 21,
      probs_1 ((20 : ℤ) - 0) ((n1 : ℕ) : ℤ) * probs_2 ((20 : ℤ) + 0) ((n2 : ℕ) : ℤ) *
        (DISCOUNT * initial_values (((n1 : ℕ) : ℤ), ((n2 : ℕ) : ℤ))) = 0 := by
    apply Finset.sum_eq_zero
    intro n1 _
    apply Finset.sum_eq_zero
    intro n2 _
    unfold initial_values
    ring
  rw [hfut, hfut2]
  have hr : 0 < rewards_1 ((20 : ℤ) - 0) + rewards_2 ((20 : ℤ) + 0) := by
    have ha : (0 : ℝ) < rewards_1 ((20 : ℤ) - 0) := by
      refine rewardsVal_pos ?_ (by omega)
      norm_num [REQUEST_1_LAMBDA]
    have hb : (0 : ℝ) ≤ rewards_2 ((20 : ℤ) + 0) := by
      refine rewardsVal_nonneg ?_ (by omega)
      norm_num [REQUEST_2_LAMBDA]
    linarith
  have hmass := total_mass_lt_one
  have hmassnn : 0 ≤ truncMass REQUEST_1_LAMBDA * truncMass DROPOFF_1_LAMBDA *
      (truncMass REQUEST_2_LAMBDA * truncMass DROPOFF_B_LAMBDA) := by
    apply mul_nonneg <;> refine truncMass_mul_nonneg ?_ ?_ <;>
      norm_num [REQUEST_1_LAMBDA, DROPOFF_1_LAMBDA, REQUEST_2_LAMBDA, DROPOFF_B_LAMBDA]
  intro heq
  nlinarith [heq]

/-- C4 (amended): `bellman_expectation` equals
`-move cost + (Σ Prob) * R + γ * Σ Prob * V`, where the immediate reward `R`
is weighted by the truncated total transition mass — the product of the four
truncated Poisson masses — which is strictly below one, not by exactly one. -/
theorem C4_reward_weighted (V : Values) (s : State) (a : ℤ) :
    bellman_expectation V s a =
      -CAR_MOVE_COST * ((|get_valid_action s a| : ℤ) : ℝ) +
        (truncMass REQUEST_1_LAMBDA * truncMass DROPOFF_1_LAMBDA) *
          (truncMass REQUEST_2_LAMBDA * truncMass DROPOFF_B_LAMBDA) *
          (rewards_1 (s.1 - get_valid_action s a) +
            rewards_2 (s.2 + get_valid_action s a)) +
        DISCOUNT * ∑ n1 ∈ Finset.range 21, ∑ n2 ∈ Finset.range 21,
          probs_1 (s.1 - get_valid_action s a) ((n1 : ℕ) : ℤ) *
            probs_2 (s.2 + get_valid_action s a) ((n2 : ℕ) : ℤ) *
            V (((n1 : ℕ) : ℤ), ((n2 : ℕ) : ℤ)) ∧
      truncMass REQUEST_1_LAMBDA * truncMass DROPOFF_1_LAMBDA *
        (truncMass REQUEST_2_LAMBDA * truncMass DROPOFF_B_LAMBDA) < 1 :=
  ⟨bellman_expectation_eq V s a, total_mass_lt_one⟩

/-- C8: policy improvement is idempotent on a stable pair: if improving
(policy, valueTable) reports isStable = true, improving again on the result
also reports isStable = true and leaves the policy identical entry for entry
over the whole grid. -/
theorem C8_idempotent (V : Values) (p : Policy)
    (hstable : (policy_improvement V p).2 = true) :
    (policy_improvement V (policy_improvement V p).1).2 = true ∧
      ∀ s ∈ gridList,
        (policy_improvement V (policy_improvement V p).1).1 s =
          (policy_improvement V p).1 s := by
  have hgrid : ∀ s ∈ gridList,
      (policy_improvement V (policy_improvement V p).1).1 s =
        (policy_improvement V p).1 s := by
    intro s hs
    have hb := mem_gridList.mp hs
    exact policy_improvement_indep V (policy_improvement V p).1 p s hb.1 hb.2.2.1
  exact ⟨(policy_improvement_stable_iff _ _).mpr hgrid, hgrid⟩

/-- Witness for C8: the greedy policy of the zero value table forms a stable
pair with that table, and re-improving it changes nothing. -/
theorem C8_idempotent_witness :
    (policy_improvement initial_values
        (policy_improvement initial_values
          (policy_improvement initial_values initial_policy).1).1).2 = true ∧
      ∀ s ∈ gridList,
        (policy_improvement initial_values
            (policy_improvement initial_values
              (policy_improvement initial_values initial_policy).1).1).1 s =
          (policy_improvement initial_values
            (policy_improvement initial_values initial_policy).1).1 s := by
  apply C8_idempotent
  rw [policy_improvement_stable_iff]
  intro s hs
  have hb := mem_gridList.mp hs
  exact policy_improvement_indep initial_values
    (policy_improvement initial_values initial_policy).1 initial_policy s hb.1 hb.2.2.1

/-- C9: the truncated Poisson masses for the tested lambdas (3, 3, 4 and 2)
are each within 1e-6 of 1, and every row of each precomputed transition table
sums to within 1e-4 of 1: the tables are row-stochastic up to truncation. -/
theorem C9_row_stochastic :
    (|truncMass REQUEST_1_LAMBDA - 1| ≤ 1 / 1000000 ∧
      |truncMass DROPOFF_1_LAMBDA - 1| ≤ 1 / 1000000 ∧
      |truncMass REQUEST_2_LAMBDA - 1| ≤ 1 / 1000000 ∧
      |truncMass DROPOFF_B_LAMBDA - 1| ≤ 1 / 1000000) ∧
      ∀ n : ℤ,
        |(∑ np ∈ Finset.range 21, probs_1 n ((np : ℕ) : ℤ)) - 1| ≤ 1 / 10000 ∧
          |(∑ np ∈ Finset.range 21, probs_2 n ((np : ℕ) : ℤ)) - 1| ≤ 1 / 10000 := by
  have h3l : 1 - 1 / 1000000 ≤ truncMass REQUEST_1_LAMBDA := truncMass_close_3
  have h3l2 : 1 - 1 / 1000000 ≤ truncMass DROPOFF_1_LAMBDA := truncMass_close_3
  have h4l : 1 - 1 / 1000000 ≤ truncMass REQUEST_2_LAMBDA := truncMass_close_4
  have h2l : 1 - 1 / 1000000 ≤ truncMass DROPOFF_B_LAMBDA := truncMass_close_2
  have h3u : truncMass REQUEST_1_LAMBDA ≤ 1 := by
    refine truncMass_le_one ?_
    norm_num [REQUEST_1_LAMBDA]
  have h3u2 : truncMass DROPOFF_1_LAMBDA ≤ 1 := by
    refine truncMass_le_one ?_
    norm_num [DROPOFF_1_LAMBDA]
  have h4u : truncMass REQUEST_2_LAMBDA ≤ 1 := by
    refine truncMass_le_one ?_
    norm_num [REQUEST_2_LAMBDA]
  have h2u : truncMass DROPOFF_B_LAMBDA ≤ 1 := by
    refine truncMass_le_one ?_
    norm_num [DROPOFF_B_LAMBDA]
  refine ⟨⟨abs_le.mpr ⟨by linarith, by linarith⟩, abs_le.mpr ⟨by linarith, by linarith⟩,
    abs_le.mpr ⟨by linarith, by linarith⟩, abs_le.mpr ⟨by linarith, by linarith⟩⟩, ?_⟩
  intro n
  rw [probs_1_row_sum, probs_2_row_sum]
  have hq : (0 : ℝ) ≤ 1 - 1 / 1000000 := by norm_num
  have hlow1 : (1 - 1 / 1000000) * (1 - 1 / 1000000) ≤
      truncMass REQUEST_1_LAMBDA * truncMass DROPOFF_1_LAMBDA :=
    mul_le_mul h3l h3l2 hq (le_trans hq h3l)
  have hlow2 : (1 - 1 / 1000000) * (1 - 1 / 1000000) ≤
      truncMass REQUEST_2_LAMBDA * truncMass DROPOFF_B_LAMBDA :=
    mul_le_mul h4l h2l hq (le_trans hq h4l)
  have hup1 : truncMass REQUEST_1_LAMBDA * truncMass DROPOFF_1_LAMBDA ≤ 1 := by
    refine truncMass_mul_le_one ?_ ?_ <;>
      norm_num [REQUEST_1_LAMBDA, DROPOFF_1_LAMBDA]
  have hup2 : truncMass REQUEST_2_LAMBDA * truncMass DROPOFF_B_LAMBDA ≤ 1 := by
    refine truncMass_mul_le_one ?_ ?_ <;>
      norm_num [REQUEST_2_LAMBDA, DROPOFF_B_LAMBDA]
  have hconst : 1 - 1 / 10000 ≤ (1 - (1 : ℝ) / 1000000) * (1 - 1 / 1000000) := by
    norm_num
  exact ⟨abs_le.mpr ⟨by linarith, by linarith⟩, abs_le.mpr ⟨by linarith, by linarith⟩⟩

end CarRental
